import Mathlib

/-!
Verification of the ATTPC harmonizer core (reader.rs, writer.rs, scalers.rs)
against its natural-language specification.

The HDF5 container is modelled shallowly: every fallible HDF5 lookup or read
that the Rust code performs is an `Option`-valued field of the file model
(`none` means that lookup/read fails), and consecutive fallible operations
whose failures are indistinguishable (both propagate via `?` with an
`eyre`-style error) are merged into a single `Option` field.  Machine
integers are `Nat`/`Int`; `u64`/`u32` wrap-around is made explicit where the
source can wrap.  The `f64` reads of integer-valued metadata are modelled as
exact (the event bounds are integers far below 2^53).
-/

namespace Harmonizer

/-- Version of the merger that produced a file (reader.rs, `enum MergerVersion`). -/
inductive MergerVersion where
  | V010
  | V020
  | Invalid
  deriving DecidableEq

/-- Two dimensional array of GET trace samples (`Array2<i16>`). -/
abbrev Traces16 := List (List Int)

/-- Two dimensional array of FRIB trace samples (`Array2<u16>`). -/
abbrev TracesU16 := List (List Nat)

/-- Unified GET event (reader.rs, `struct GetEvent`). -/
structure GetEvent where
  traces : Traces16
  id : Nat
  timestamp : Nat
  timestamp_other : Nat
  deriving DecidableEq

/-- Unified FRIBDAQ event (reader.rs, `struct FribEvent`). -/
structure FribEvent where
  traces : TracesU16
  coincidence : List Nat
  event : Nat
  timestamp : Nat
  deriving DecidableEq

/-- Unified complete event (reader.rs, `struct MergerEvent`). -/
structure MergerEvent where
  get : Option GetEvent
  frib : Option FribEvent
  run_number : Int
  event : Nat
  deriving DecidableEq

/-- Content reachable from the optional dataset `get_traces` of a current-schema
event group (reader.rs, `read_event_020`).  Each field is one fallible read
performed after the dataset has been found; `none` means that read fails
(which the source propagates as a fatal error). -/
structure Get020 where
  traces : Option Traces16
  id : Option Nat
  timestamp : Option Nat
  timestamp_other : Option Nat
  deriving DecidableEq

/-- Content reachable from the optional group `frib_physics` of a current-schema
event group (reader.rs, `read_event_020`). -/
structure Frib020 where
  d977 : Option (List Nat)
  d1903 : Option TracesU16
  event : Option Nat
  timestamp : Option Nat
  deriving DecidableEq

/-- One current-schema event group `events/event_{i}`.  The two payload fields
are the optional presence markers: dataset `get_traces` and group
`frib_physics`; `none` means the marker is absent (not an error). -/
structure Event020 where
  get_traces : Option Get020
  frib_physics : Option Frib020
  deriving DecidableEq

/-- The top-level `events` group of a current-schema file.  `min_event` and
`max_event` are the scalar attributes (`none` = absent/unreadable, a fatal
error where read); `event i` is the sub-group `event_{i}` (`none` = absent,
a fatal error in `read_event_020`). -/
structure Events020 where
  min_event : Option Nat
  max_event : Option Nat
  event : Nat → Option Event020

/-- Per-event content under the legacy `get` group: the optional presence
marker is the dataset `evt{i}_data`; `data` is its `read_2d` outcome and
`header` the separate `evt{i}_header` dataset read (entries 0,1,2 of a 1-D
f64 array, integral in practice). -/
structure Get010 where
  data : Option Traces16
  header : Option (Nat × Nat × Nat)
  deriving DecidableEq

/-- Per-event content under the legacy `frib`/`evt` group: the optional
presence marker is the dataset `evt{i}_1903`; the other fields are the
subsequent fatal-on-failure reads. -/
structure Frib010 where
  d1903 : Option TracesU16
  d977 : Option (List Nat)
  header : Option (Nat × Nat)
  deriving DecidableEq

/-- The `scalers` group of a current-schema file (scalers.rs,
`read_scalers_020`).  `record i` models the dataset lookup `event_{i}`:
`none` = dataset absent (the source propagates this lookup failure via `?`),
`some none` = dataset present but `read_1d` fails (the source skips it),
`some (some row)` = readable 11-channel row. -/
structure Scalers020 where
  min_event : Option Nat
  max_event : Option Nat
  record : Nat → Option (Option (Fin 11 → Nat))

/-- Model of one on-disk merger run file.  `members` is `member_names()`;
groups probed by name lookup are `Option` fields (`none` = group missing,
which is fatal exactly where the source uses `?` on the lookup).  The
legacy `frib`/`scaler` datasets are the consecutively numbered prefix
`scaler{0}_data, scaler{1}_data, ...` that the probe loop can see: element
`i` is `some row` when `scaler{i}_data` is present and readable, `some none`
is not used there; instead `none` inside the list marks a present but
unreadable dataset (whose `read_1d()?` is fatal), and the list ends at the
first missing dataset. -/
structure RunFile where
  members : List String
  bytes : Nat
  meta : Option (Nat × Nat × Nat)
  get010 : Option (Nat → Option Get010)
  frib010 : Option (Nat → Option Frib010)
  scaler010 : Option (List (Option (Fin 11 → Nat)))
  events020 : Events020
  scalers020 : Option Scalers020

/-- The set of runs on disk: run number to the file at
`construct_run_path(merger_path, run)`, `none` when that path does not exist. -/
abbrev Disk := Int → Option RunFile

/-- The inclusive run iteration `min_run..(max_run + 1)` used by all three
passes over the run range. -/
def runRange (minRun maxRun : Int) : List Int :=
  (List.range (maxRun + 1 - minRun).toNat).map (fun k : Nat => minRun + (k : Int))

/-- Modulus of u64 arithmetic. -/
def U64 : Nat := 2 ^ 64

/-- Wrapping u64 subtraction (release-mode Rust `a - b` on `u64`). -/
def u64sub (a b : Nat) : Nat := (a % U64 + U64 - b % U64) % U64

/-- Modulus of u32 arithmetic. -/
def U32 : Nat := 2 ^ 32

/-- The cast `run as u32` applied to an `i32` run number (two's complement). -/
def u32ofInt (r : Int) : Nat := (r % (U32 : Nat)).toNat

/-- Per-file contribution of `get_total_merger_events` (reader.rs 34-50).
Legacy: the `meta`/`meta` dataset is read as f64 and
`(meta[2] - meta[0]) as u64 + 1` is added; the float-to-u64 cast saturates
at 0, which on integral values is exactly `Nat` truncated subtraction.
Current: `max_event - min_event` on `u64` attribute values.  A file whose
top level has neither `meta` nor `events` contributes nothing (the source
has no else branch here). -/
def fileDeclaredCount (f : RunFile) : Except Unit Nat :=
  if f.members.contains "meta" then
    match f.meta with
    | none => .error ()
    | some (m0, _, m2) => .ok (m2 - m0 + 1)
  else if f.members.contains "events" then
    match f.events020.max_event, f.events020.min_event with
    | some mx, some mn => .ok (u64sub mx mn)
    | _, _ => .error ()
  else .ok 0

/-- The loop body of `get_total_merger_events` over an explicit run list:
a run whose file fails to open is skipped (`if let Ok(merger_file)`), any
failure inside an opened file is propagated via `?`. -/
def getTotalMergerEventsList (disk : Disk) : List Int → Except Unit Nat
  | [] => .ok 0
  | r :: rest =>
    match disk r with
    | none => getTotalMergerEventsList disk rest
    | some f =>
      match fileDeclaredCount f with
      | .error e => .error e
      | .ok c => (getTotalMergerEventsList disk rest).map (fun acc => c + acc)

/-- `get_total_merger_events` over the inclusive run range. -/
def getTotalMergerEvents (disk : Disk) (minRun maxRun : Int) : Except Unit Nat :=
  getTotalMergerEventsList disk (runRange minRun maxRun)

/-- The loop body of `get_total_merger_bytes` (reader.rs 23-31): a run whose
metadata cannot be stat-ed (missing file) adds nothing. -/
def getTotalMergerBytesList (disk : Disk) : List Int → Nat
  | [] => 0
  | r :: rest =>
    (match disk r with
     | none => 0
     | some f => f.bytes) + getTotalMergerBytesList disk rest

/-- `get_total_merger_bytes` over the inclusive run range. -/
def getTotalMergerBytes (disk : Disk) (minRun maxRun : Int) : Nat :=
  getTotalMergerBytesList disk (runRange minRun maxRun)

/-- `MergerReader::init_file` (reader.rs 137-156): classify the file from its
top-level member names and read the event-bound cursor.  Returns the version
together with the initial `current_event` and `current_max_event`. -/
def initFile (f : RunFile) : Except Unit (MergerVersion × Nat × Nat) :=
  if f.members.contains "meta" then
    match f.meta with
    | none => .error ()
    | some (m0, _, m2) => .ok (.V010, m0, m2)
  else if f.members.contains "events" then
    match f.events020.min_event, f.events020.max_event with
    | some mn, some mx => .ok (.V020, mn, mx)
    | _, _ => .error ()
  else .error ()

/-- Decode of the optional `get_traces` dataset of a current-schema event
(reader.rs 187-194): an absent dataset yields `none`; once present, every
inner read must succeed. -/
def readGet020 : Option Get020 → Except Unit (Option GetEvent)
  | none => .ok none
  | some g =>
    match g.traces, g.id, g.timestamp, g.timestamp_other with
    | some t, some i, some ts, some tso => .ok (some ⟨t, i, ts, tso⟩)
    | _, _, _, _ => .error ()

/-- Decode of the optional `frib_physics` group of a current-schema event
(reader.rs 195-204). -/
def readFrib020 : Option Frib020 → Except Unit (Option FribEvent)
  | none => .ok none
  | some fr =>
    match fr.d1903, fr.d977, fr.event, fr.timestamp with
    | some t, some c, some e, some ts => .ok (some ⟨t, c, e, ts⟩)
    | _, _, _, _ => .error ()

/-- `MergerReader::read_event_020` (reader.rs 179-211) at event index `i` of
run `r`: the per-event group `events/event_{i}` must exist; the two payloads
are optional. -/
def readEvent020 (f : RunFile) (r : Int) (i : Nat) : Except Unit MergerEvent :=
  match f.events020.event i with
  | none => .error ()
  | some eg =>
    match readGet020 eg.get_traces with
    | .error e => .error e
    | .ok mg =>
      match readFrib020 eg.frib_physics with
      | .error e => .error e
      | .ok mf => .ok ⟨mg, mf, r, i⟩

/-- Decode of the optional legacy GET payload at one event (reader.rs
215-228): the marker is the dataset `evt{i}_data`; once it is present the
header dataset read and the `read_2d` are fatal on failure. -/
def readGet010 : Option Get010 → Except Unit (Option GetEvent)
  | none => .ok none
  | some g =>
    match g.data, g.header with
    | some t, some (h0, h1, h2) => .ok (some ⟨t, h0, h1, h2⟩)
    | _, _ => .error ()

/-- Decode of the optional legacy FRIB payload at one event (reader.rs
229-244): the marker is the dataset `evt{i}_1903`. -/
def readFrib010 : Option Frib010 → Except Unit (Option FribEvent)
  | none => .ok none
  | some fr =>
    match fr.d1903, fr.d977, fr.header with
    | some t, some c, some (h0, h1) => .ok (some ⟨t, c, h0, h1⟩)
    | _, _, _ => .error ()

/-- `MergerReader::read_event_010` (reader.rs 214-251) at event index `i` of
run `r`: the `get` group and the `frib`/`evt` group must themselves exist
(their lookups use `?`); within them the per-event payloads are optional. -/
def readEvent010 (f : RunFile) (r : Int) (i : Nat) : Except Unit MergerEvent :=
  match f.get010 with
  | none => .error ()
  | some gg =>
    match readGet010 (gg i) with
    | .error e => .error e
    | .ok mg =>
      match f.frib010 with
      | none => .error ()
      | some fg =>
        match readFrib010 (fg i) with
        | .error e => .error e
        | .ok mf => .ok ⟨mg, mf, r, i⟩

/-- Version dispatch of `MergerReader::read_event` (reader.rs 125-129). -/
def readEventV : MergerVersion → RunFile → Int → Nat → Except Unit MergerEvent
  | .V020, f, r, i => readEvent020 f r i
  | .V010, f, r, i => readEvent010 f r i
  | .Invalid, _, _, _ => .error ()

/-- The in-file portion of the `read_event` loop: starting at cursor `e`,
read the `n` remaining indices `e, e+1, ..., e+n-1` of the current file
(`n` is `current_max_event + 1 - current_event`; the loop leaves the file
once the cursor exceeds the declared maximum). -/
def readRunFrom (v : MergerVersion) (f : RunFile) (r : Int) (e : Nat) :
    Nat → Except Unit (List MergerEvent)
  | 0 => .ok []
  | n + 1 =>
    match readEventV v f r e with
    | .error err => .error err
    | .ok ev =>
      match readRunFrom v f r (e + 1) n with
      | .error err => .error err
      | .ok rest => .ok (ev :: rest)

/-- The cross-file portion of the `read_event` loop (`find_next_file`,
reader.rs 160-176): candidate run numbers are tried in increasing order,
non-existent paths are skipped (`continue`), and each found file is passed
through `init_file` before its declared event range is read. -/
def drainRuns (disk : Disk) : List Int → Except Unit (List MergerEvent)
  | [] => .ok []
  | r :: rest =>
    match disk r with
    | none => drainRuns disk rest
    | some f =>
      match initFile f with
      | .error e => .error e
      | .ok (v, e0, mE) =>
        match readRunFrom v f r e0 (mE + 1 - e0) with
        | .error e => .error e
        | .ok evs =>
          match drainRuns disk rest with
          | .error e => .error e
          | .ok more => .ok (evs ++ more)

/-- The full event stream produced by `MergerReader::new` followed by
repeated `MergerReader::read_event` until it returns `None`
(reader.rs 95-134 driven by the loop in main.rs 116-125).  `new` opens the
file at `min_run` and fails if it does not exist; every later missing run
is skipped by `find_next_file`. -/
def readAllEvents (disk : Disk) (minRun maxRun : Int) : Except Unit (List MergerEvent) :=
  match disk minRun with
  | none => .error ()
  | some f =>
    match initFile f with
    | .error e => .error e
    | .ok (v, e0, mE) =>
      match readRunFrom v f minRun e0 (mE + 1 - e0) with
      | .error e => .error e
      | .ok evs =>
        match drainRuns disk (runRange (minRun + 1) maxRun) with
        | .error e => .error e
        | .ok more => .ok (evs ++ more)

/-- One event as stored in an output file (writer.rs, `HarmonicWriter::write`):
the group `event_{local_index}` with its `orig_run`/`orig_event` provenance
attributes and the mirrored payloads. -/
structure OutEvent where
  orig_run : Int
  orig_event : Nat
  get : Option GetEvent
  frib : Option FribEvent
  deriving DecidableEq

/-- One output file: its `events` group attributes and the stored events, in
local-index order (`event_0, event_1, ...`). `max_event_attr` is created
empty by `init_file` and written only by `finish_file`. -/
structure OutFile where
  min_event_attr : Nat
  events : List OutEvent
  max_event_attr : Option Nat
  deriving DecidableEq

/-- Abstraction of the on-disk byte size the writer polls through
`metadata().len()`: a freshly initialized file occupies `base` bytes and each
appended event adds its own `evSize` bytes. -/
structure SizeModel where
  base : Nat
  evSize : OutEvent → Nat

/-- On-disk size of an output file holding the given events. -/
def fileSize (sm : SizeModel) (evs : List OutEvent) : Nat :=
  sm.base + (evs.map sm.evSize).sum

/-- State of `HarmonicWriter` (writer.rs 8-16) together with the files already
finalized.  `current_run` is the output file number of the open file. -/
structure WriterState where
  finished : List OutFile
  current : OutFile
  current_event : Nat
  current_run : Nat
  deriving DecidableEq

/-- `HarmonicWriter::init_file` (writer.rs 111-126): a new file's `events`
group carries `min_event = 0`, a created-but-unwritten `max_event`, and the
version tag. -/
def newOutFile : OutFile :=
  { min_event_attr := 0, events := [], max_event_attr := none }

/-- `HarmonicWriter::finish_file` (writer.rs 128-135): write the `max_event`
attribute with the current local event counter. -/
def finishFile (f : OutFile) (count : Nat) : OutFile :=
  { f with max_event_attr := some count }

/-- `HarmonicWriter::new` (writer.rs 19-36): output file 0 is created and
initialized. -/
def initWriter : WriterState :=
  { finished := [], current := newOutFile, current_event := 0, current_run := 0 }

/-- The event content written by `HarmonicWriter::write` (writer.rs 38-91):
provenance attributes copied from the event, plus the payloads present. -/
def outEventOf (ev : MergerEvent) : OutEvent :=
  { orig_run := ev.run_number, orig_event := ev.event, get := ev.get, frib := ev.frib }

/-- `HarmonicWriter::write` (writer.rs 38-104): append the event at the
current local index, increment the index, then poll the file size; when it
has reached `harmonic_size`, finalize the file and open the next one with
the local index reset to 0. -/
def write (sm : SizeModel) (threshold : Nat) (st : WriterState) (ev : MergerEvent) :
    WriterState :=
  let cur : OutFile := { st.current with events := st.current.events ++ [outEventOf ev] }
  let ce := st.current_event + 1
  if threshold ≤ fileSize sm cur.events then
    { finished := st.finished ++ [finishFile cur ce]
      current := newOutFile
      current_event := 0
      current_run := st.current_run + 1 }
  else
    { st with current := cur, current_event := ce }

/-- `HarmonicWriter::close` (writer.rs 107-109): finalize the open file. -/
def close (st : WriterState) : List OutFile :=
  st.finished ++ [finishFile st.current st.current_event]

/-- The whole output of the writer on an input stream: the loop of main.rs
116-125 (`write` per event) followed by `close`. -/
def runWriter (sm : SizeModel) (threshold : Nat) (evs : List MergerEvent) : List OutFile :=
  close (evs.foldl (write sm threshold) initWriter)

/-- The scaler accumulator (scalers.rs 19): `vec![vec![]; 13]`, columns
`run, event` then the 11 instrumentation channels. -/
abbrev Scalers := List (List Nat)

/-- Initial scaler accumulator: 13 empty columns. -/
def initScalers : Scalers := List.replicate 13 []

/-- One appended scaler row in column order: the run number, the record's own
per-run index, then the 11 channel values `data[0] .. data[10]` in order
(the 13 `push` statements of scalers.rs 68-80 and 96-108). -/
def rowOf (run idx : Nat) (d : Fin 11 → Nat) : List Nat :=
  [run, idx, d 0, d 1, d 2, d 3, d 4, d 5, d 6, d 7, d 8, d 9, d 10]

/-- Push one row: value `j` of the row goes to the end of column `j`. -/
def pushRow (s : Scalers) (row : List Nat) : Scalers :=
  List.zipWith (fun col v => col ++ [v]) s row

/-- Columnwise effect of one push at one column position: the value is
appended to the column when both exist. -/
def appendCell : Option (List Nat) → Option Nat → Option (List Nat)
  | some col, some v => some (col ++ [v])
  | _, _ => none

/-- The probe loop of `read_scalers_010` (scalers.rs 62-87) over the prefix of
consecutively numbered `scaler{i}_data` datasets: a readable dataset is
appended as a row (with the running index as the `event` column) and the
probe continues; a present but unreadable dataset is fatal
(`event.read_1d()?`); the loop breaks at the first missing dataset (the end
of the modelled list). -/
def rs010Go (run : Int) : Scalers → Nat → List (Option (Fin 11 → Nat)) → Except Unit Scalers
  | s, _, [] => .ok s
  | s, i, d :: rest =>
    match d with
    | none => .error ()
    | some row => rs010Go run (pushRow s (rowOf (u32ofInt run) i row)) (i + 1) rest

/-- `read_scalers_010` (scalers.rs 62-87): the `frib`/`scaler` group lookup is
fatal when missing, then the probe loop runs from index 0. -/
def readScalers010 (s : Scalers) (f : RunFile) (run : Int) : Except Unit Scalers :=
  match f.scaler010 with
  | none => .error ()
  | some sdats => rs010Go run s 0 sdats

/-- The range loop of `read_scalers_020` (scalers.rs 94-110), iterating `n`
indices starting at `i`: a missing `event_{i}` dataset is a fatal error (the
`?` sits on the dataset lookup), a present dataset whose `read_1d` fails is
skipped by the `if let`, and a readable row is appended with its own index
as the `event` column. -/
def rs020Go (run : Int) (sg : Scalers020) : Scalers → Nat → Nat → Except Unit Scalers
  | s, _, 0 => .ok s
  | s, i, n + 1 =>
    match sg.record i with
    | none => .error ()
    | some none => rs020Go run sg s (i + 1) n
    | some (some row) => rs020Go run sg (pushRow s (rowOf (u32ofInt run) i row)) (i + 1) n

/-- `read_scalers_020` (scalers.rs 90-112): the `scalers` group and its two
bound attributes are required; the loop covers `min_event..=max_event`. -/
def readScalers020 (s : Scalers) (f : RunFile) (run : Int) : Except Unit Scalers :=
  match f.scalers020 with
  | none => .error ()
  | some sg =>
    match sg.min_event, sg.max_event with
    | some mn, some mx => rs020Go run sg s mn (mx + 1 - mn)
    | _, _ => .error ()

/-- The per-run body of `process_scalers` (scalers.rs 37-46): the same
member-name version rule as the reader, with an unrecognized layout being a
propagated fatal error. -/
def processRunScalers (f : RunFile) (run : Int) (s : Scalers) : Except Unit Scalers :=
  if f.members.contains "meta" then readScalers010 s f run
  else if f.members.contains "events" then readScalers020 s f run
  else .error ()

/-- The run-range loop of `process_scalers` (scalers.rs 36-47) over an
explicit run list: a run whose file fails to open is skipped. -/
def processScalersList (disk : Disk) : List Int → Scalers → Except Unit Scalers
  | [], s => .ok s
  | r :: rest, s =>
    match disk r with
    | none => processScalersList disk rest s
    | some f =>
      match processRunScalers f r s with
      | .error e => .error e
      | .ok s' => processScalersList disk rest s'

/-- `process_scalers` accumulation over the inclusive run range (the final
DataFrame/parquet serialization is outside the model). -/
def processScalers (disk : Disk) (minRun maxRun : Int) : Except Unit Scalers :=
  processScalersList disk (runRange minRun maxRun) initScalers

/-- Provenance projection of a reader event. -/
def proj (ev : MergerEvent) : Int × Nat := (ev.run_number, ev.event)

/-- Provenance projection of a stored output event. -/
def outProj (oe : OutEvent) : Int × Nat := (oe.orig_run, oe.orig_event)

/-- Strict lexicographic order on `(run_number, event_index)` pairs. -/
def lexLt (p q : Int × Nat) : Prop := p.1 < q.1 ∨ (p.1 = q.1 ∧ p.2 < q.2)

instance decidableLexLt : DecidableRel lexLt := fun p q =>
  inferInstanceAs (Decidable (p.1 < q.1 ∨ (p.1 = q.1 ∧ p.2 < q.2)))

/-- Concatenation of the output files' event sequences, in file-number order
then local-index order. -/
def concatOutput (files : List OutFile) : List OutEvent :=
  files.foldr (fun g acc => g.events ++ acc) []

/-- Events written so far by a writer state: the finalized files' contents
followed by the open file's contents. -/
def liveOutput (st : WriterState) : List OutEvent :=
  concatOutput st.finished ++ st.current.events

/-- All reads hanging off the current-schema GET presence marker succeed
(vacuously when the marker is absent). -/
def get020Complete : Option Get020 → Prop
  | none => True
  | some g => g.traces.isSome = true ∧ g.id.isSome = true ∧
      g.timestamp.isSome = true ∧ g.timestamp_other.isSome = true

/-- All reads hanging off the current-schema FRIB presence marker succeed. -/
def frib020Complete : Option Frib020 → Prop
  | none => True
  | some fr => fr.d1903.isSome = true ∧ fr.d977.isSome = true ∧
      fr.event.isSome = true ∧ fr.timestamp.isSome = true

/-- All reads hanging off the legacy GET presence marker succeed. -/
def get010Complete : Option Get010 → Prop
  | none => True
  | some g => g.data.isSome = true ∧ g.header.isSome = true

/-- All reads hanging off the legacy FRIB presence marker succeed. -/
def frib010Complete : Option Frib010 → Prop
  | none => True
  | some fr => fr.d1903.isSome = true ∧ fr.d977.isSome = true ∧ fr.header.isSome = true

/-- Append a list of `(index, channels)` records for one run, in order. -/
def pushRecs (run : Int) (s : Scalers) (recs : List (Nat × (Fin 11 → Nat))) : Scalers :=
  recs.foldl (fun a p => pushRow a (rowOf (u32ofInt run) p.1 p.2)) s

/-- Current-schema event group with neither optional payload. -/
def emptyEvent020 : Event020 := { get_traces := none, frib_physics := none }

/-- Current-schema file declaring `min_event = 0`, `max_event = 1`, with the
event groups `event_0` and `event_1` present (payload-free). -/
def c1File : RunFile :=
  { members := ["events"], bytes := 0, meta := none, get010 := none, frib010 := none,
    scaler010 := none,
    events020 := { min_event := some 0, max_event := some 1,
                   event := fun i => if i ≤ 1 then some emptyEvent020 else none },
    scalers020 := none }

/-- Disk holding only `c1File` at run 0. -/
def c1Disk : Disk := fun r => if r = 0 then some c1File else none

/-- A `scalers` group declaring the inclusive range `0..=1` whose record
dataset `event_0` is present and readable while `event_1` is absent. -/
def c3Scalers : Scalers020 :=
  { min_event := some 0, max_event := some 1,
    record := fun i => if i = 0 then some (some (fun _ => 7)) else none }

/-- Current-schema file carrying `c3Scalers`. -/
def c3File : RunFile :=
  { members := ["events"], bytes := 0, meta := none, get010 := none, frib010 := none,
    scaler010 := none,
    events020 := { min_event := some 0, max_event := some 0, event := fun _ => none },
    scalers020 := some c3Scalers }

/-- Valid single-event current-schema file used as the present run of the C8
counterexample. -/
def c8File : RunFile :=
  { members := ["events"], bytes := 5, meta := none, get010 := none, frib010 := none,
    scaler010 := none,
    events020 := { min_event := some 0, max_event := some 0,
                   event := fun _ => some emptyEvent020 },
    scalers020 := none }

/-- Disk where run 0 is absent and run 1 holds `c8File`. -/
def c8Disk : Disk := fun r => if r = 1 then some c8File else none

/-- Legacy file with one declared event (bounds `[0, _, 0]`), payload-free,
and an empty scaler prefix. -/
def c5File : RunFile :=
  { members := ["meta"], bytes := 0, meta := some (0, 0, 0),
    get010 := some (fun _ => none), frib010 := some (fun _ => none),
    scaler010 := some [],
    events020 := { min_event := none, max_event := none, event := fun _ => none },
    scalers020 := none }

/-- File whose top level holds neither `meta` nor `events`. -/
def invalidFile : RunFile :=
  { members := ["other"], bytes := 0, meta := none, get010 := none, frib010 := none,
    scaler010 := none,
    events020 := { min_event := none, max_event := none, event := fun _ => none },
    scalers020 := none }

/-- Legacy two-declared-event file (bounds `[0, _, 1]`) with both payload
markers absent at every index. -/
def c2FileB : RunFile :=
  { members := ["meta"], bytes := 0, meta := some (0, 0, 1),
    get010 := some (fun _ => none), frib010 := some (fun _ => none),
    scaler010 := some [],
    events020 := { min_event := none, max_event := none, event := fun _ => none },
    scalers020 := none }

/-- Disk with a current-schema run 0 (`c1File` shape), a missing run 1, and a
legacy run 2 (`c2FileB`). -/
def c2Disk : Disk :=
  fun r => if r = 0 then some c1File else if r = 2 then some c2FileB else none

/-- Size model where every event occupies one byte on top of an empty file. -/
def sm0 : SizeModel := { base := 0, evSize := fun _ => 1 }

/-- A bare provenance-only event. -/
def wEvent : MergerEvent := { get := none, frib := none, run_number := 0, event := 0 }

/-- C1: on a single current-schema run declaring `min_event = 0`,
`max_event = 1` with both event groups present, `get_total_merger_events`
returns `max_event - min_event = 1`, while the `read_event` loop yields 2
events before end-of-stream (it reads the inclusive range
`min_event..=max_event`): scanning and reading disagree by one on every
current-schema run, contradicting the claimed equality. -/
theorem c1_scan_read_disagree :
    getTotalMergerEvents c1Disk 0 0 = .ok 1 ∧
    Except.map List.length (readAllEvents c1Disk 0 0) = .ok 2 :=
  ⟨rfl, rfl⟩

/-- C3: in current-schema scaler aggregation an in-range index whose record
dataset is absent is not skipped: the dataset lookup failure is propagated
(the `?` in scalers.rs 95 sits on the lookup), so the pass aborts.  Here the
declared range is `0..=1`, `event_0` is present and readable, `event_1` is
absent, and `read_scalers_020` returns an error instead of the claimed
one-row success. -/
theorem c3_missing_record_aborts :
    (c3Scalers.record 0).isSome = true ∧ c3Scalers.record 1 = none ∧
    c3File.scalers020 = some c3Scalers ∧
    readScalers020 initScalers c3File 4 = .error () :=
  ⟨rfl, rfl, rfl, rfl⟩

/-- C8 counterexample: run 0 is absent from the range `[0, 1]`, yet the
reader pass aborts, because `MergerReader::new` opens the file of `min_run`
directly and propagates the failure; the claim that a missing run never
aborts any of the three passes is false when the missing run is `min_run`. -/
theorem c8_missing_min_run_aborts :
    c8Disk 0 = none ∧ readAllEvents c8Disk 0 1 = .error () :=
  ⟨rfl, rfl⟩

/-- C8 (amended): a run number whose file is absent contributes zero bytes to
the byte scanner, zero events to the event scanner, zero rows to the scaler
aggregator, and is skipped silently by all of them; the reader also skips it
when it is reached through `find_next_file`, but fails at construction when
the absent run is `min_run` itself. -/
theorem c8_missing_run_skipped (disk : Disk) (runs : List Int) (r : Int) (s : Scalers)
    (hr : disk r = none) :
    getTotalMergerBytesList disk (r :: runs) = getTotalMergerBytesList disk runs ∧
    getTotalMergerEventsList disk (r :: runs) = getTotalMergerEventsList disk runs ∧
    processScalersList disk (r :: runs) s = processScalersList disk runs s ∧
    drainRuns disk (r :: runs) = drainRuns disk runs ∧
    getTotalMergerBytesList disk [r] = 0 ∧
    getTotalMergerEventsList disk [r] = .ok 0 ∧
    processScalersList disk [r] s = .ok s ∧
    (∀ maxRun, readAllEvents disk r maxRun = .error ()) := by
  refine ⟨?_, ?_, ?_, ?_, ?_, ?_, ?_, ?_⟩ <;>
    simp [getTotalMergerBytesList, getTotalMergerEventsList, processScalersList,
      drainRuns, readAllEvents, hr]

/-- C8 witness: the amended theorem applied to the empty disk at run 0. -/
theorem c8_missing_run_skipped_witness :
    getTotalMergerEventsList (fun _ => none) [(0 : Int)] = .ok 0 ∧
    processScalersList (fun _ => none) [(0 : Int)] initScalers = .ok initScalers :=
  ⟨(c8_missing_run_skipped (fun _ => none) [] 0 initScalers rfl).2.2.2.2.2.1,
   (c8_missing_run_skipped (fun _ => none) [] 0 initScalers rfl).2.2.2.2.2.2.1⟩

/-- C5: both the reader (`init_file`) and the scaler aggregator
(`process_scalers`) classify an opened file by the same top-level member-name
rule: a member named `meta` means legacy (V010), otherwise a member named
`events` means current (V020), otherwise the operation fails with a
propagated schema-violation error (shown for both whole passes). -/
theorem c5_version_rule (f : RunFile) (run : Int) (s : Scalers) :
    (f.members.contains "meta" = true →
      (∀ v e m, initFile f = .ok (v, e, m) → v = .V010) ∧
      processRunScalers f run s = readScalers010 s f run) ∧
    (f.members.contains "meta" = false → f.members.contains "events" = true →
      (∀ v e m, initFile f = .ok (v, e, m) → v = .V020) ∧
      processRunScalers f run s = readScalers020 s f run) ∧
    (f.members.contains "meta" = false → f.members.contains "events" = false →
      initFile f = .error () ∧ processRunScalers f run s = .error () ∧
      (∀ (disk : Disk) (r : Int) (rest : List Int), disk r = some f →
        processScalersList disk (r :: rest) s = .error () ∧
        drainRuns disk (r :: rest) = .error ())) := by
  refine ⟨fun hm => ?_, fun hm he => ?_, fun hm he => ?_⟩
  · have hm' : "meta" ∈ f.members := by simpa using hm
    refine ⟨?_, ?_⟩
    · intro v e m h
      unfold initFile at h
      rw [hm] at h
      simp only [if_true] at h
      cases hmeta : f.meta with
      | none => rw [hmeta] at h; exact absurd h (by simp)
      | some x =>
        obtain ⟨m0, m1, m2⟩ := x
        rw [hmeta] at h
        simp only [Except.ok.injEq, Prod.mk.injEq] at h
        exact h.1.symm
    · simp [processRunScalers, hm']
  · have hm' : "meta" ∉ f.members := by simpa using hm
    have he' : "events" ∈ f.members := by simpa using he
    refine ⟨?_, ?_⟩
    · intro v e m h
      unfold initFile at h
      rw [hm, he] at h
      simp only [Bool.false_eq_true, if_false, if_true] at h
      cases hmn : f.events020.min_event with
      | none => rw [hmn] at h; exact absurd h (by simp)
      | some mn =>
        cases hmx : f.events020.max_event with
        | none => rw [hmn, hmx] at h; exact absurd h (by simp)
        | some mx =>
          rw [hmn, hmx] at h
          simp only [Except.ok.injEq, Prod.mk.injEq] at h
          exact h.1.symm
    · simp [processRunScalers, hm', he']
  · have hm' : "meta" ∉ f.members := by simpa using hm
    have he' : "events" ∉ f.members := by simpa using he
    refine ⟨?_, ?_, ?_⟩
    · simp [initFile, hm', he']
    · simp [processRunScalers, hm', he']
    · intro disk r rest hd
      refine ⟨?_, ?_⟩
      · simp [processScalersList, hd, processRunScalers, hm', he']
      · simp [drainRuns, hd, initFile, hm', he']

/-- C5 witness: the rule applied to a concrete legacy file and a concrete
unrecognized file. -/
theorem c5_version_rule_witness :
    processRunScalers c5File 0 initScalers = readScalers010 initScalers c5File 0 ∧
    initFile invalidFile = .error () :=
  ⟨((c5_version_rule c5File 0 initScalers).1 rfl).2,
   ((c5_version_rule invalidFile 0 initScalers).2.2 rfl rfl).1⟩

theorem readGet020_error_iff (o : Option Get020) :
    readGet020 o = .error () ↔ ¬ get020Complete o := by
  cases o with
  | none => simp [readGet020, get020Complete]
  | some g =>
    obtain ⟨t, i, ts, tso⟩ := g
    cases t <;> cases i <;> cases ts <;> cases tso <;>
      simp [readGet020, get020Complete]

theorem readGet020_ok (o : Option Get020) (mg : Option GetEvent)
    (h : readGet020 o = .ok mg) : get020Complete o ∧ mg.isSome = o.isSome := by
  cases o with
  | none =>
    simp only [readGet020, Except.ok.injEq] at h
    simp [get020Complete, ← h]
  | some g =>
    obtain ⟨t, i, ts, tso⟩ := g
    cases t <;> cases i <;> cases ts <;> cases tso <;>
      first
        | (simp only [readGet020, Except.ok.injEq] at h
           subst h
           simp [get020Complete])
        | simp [readGet020] at h

theorem readFrib020_error_iff (o : Option Frib020) :
    readFrib020 o = .error () ↔ ¬ frib020Complete o := by
  cases o with
  | none => simp [readFrib020, frib020Complete]
  | some fr =>
    obtain ⟨c, t, e, ts⟩ := fr
    cases c <;> cases t <;> cases e <;> cases ts <;>
      simp [readFrib020, frib020Complete]

theorem readFrib020_ok (o : Option Frib020) (mf : Option FribEvent)
    (h : readFrib020 o = .ok mf) : frib020Complete o ∧ mf.isSome = o.isSome := by
  cases o with
  | none =>
    simp only [readFrib020, Except.ok.injEq] at h
    simp [frib020Complete, ← h]
  | some fr =>
    obtain ⟨c, t, e, ts⟩ := fr
    cases c <;> cases t <;> cases e <;> cases ts <;>
      first
        | (simp only [readFrib020, Except.ok.injEq] at h
           subst h
           simp [frib020Complete])
        | simp [readFrib020] at h

theorem readGet010_error_iff (o : Option Get010) :
    readGet010 o = .error () ↔ ¬ get010Complete o := by
  cases o with
  | none => simp [readGet010, get010Complete]
  | some g =>
    obtain ⟨t, h⟩ := g
    cases t <;> rcases h with _ | ⟨⟨h0, h1, h2⟩⟩ <;>
      simp [readGet010, get010Complete]

theorem readGet010_ok (o : Option Get010) (mg : Option GetEvent)
    (h : readGet010 o = .ok mg) : get010Complete o ∧ mg.isSome = o.isSome := by
  cases o with
  | none =>
    simp only [readGet010, Except.ok.injEq] at h
    simp [get010Complete, ← h]
  | some g =>
    obtain ⟨t, hd⟩ := g
    cases t <;> rcases hd with _ | ⟨⟨h0, h1, h2⟩⟩ <;>
      first
        | (simp only [readGet010, Except.ok.injEq] at h
           subst h
           simp [get010Complete])
        | simp [readGet010] at h

theorem readFrib010_error_iff (o : Option Frib010) :
    readFrib010 o = .error () ↔ ¬ frib010Complete o := by
  cases o with
  | none => simp [readFrib010, frib010Complete]
  | some fr =>
    obtain ⟨t, c, h⟩ := fr
    cases t <;> cases c <;> rcases h with _ | ⟨⟨h0, h1⟩⟩ <;>
      simp [readFrib010, frib010Complete]

theorem readFrib010_ok (o : Option Frib010) (mf : Option FribEvent)
    (h : readFrib010 o = .ok mf) : frib010Complete o ∧ mf.isSome = o.isSome := by
  cases o with
  | none =>
    simp only [readFrib010, Except.ok.injEq] at h
    simp [frib010Complete, ← h]
  | some fr =>
    obtain ⟨t, c, hd⟩ := fr
    cases t <;> cases c <;> rcases hd with _ | ⟨⟨h0, h1⟩⟩ <;>
      first
        | (simp only [readFrib010, Except.ok.injEq] at h
           subst h
           simp [frib010Complete])
        | simp [readFrib010] at h

/-- C4: for an opened, in-range event, absence of an optional payload's
presence marker (current schema: dataset `get_traces` or group
`frib_physics`; legacy schema: dataset `evt{i}_data` or `evt{i}_1903`) is
not an error — the returned event simply carries `none` for that payload —
and the read fails exactly when some element other than a presence marker
is missing (including, in the legacy schema, the `get` group itself). -/
theorem c4_optional_payloads (f : RunFile) (r : Int) (i : Nat) :
    (∀ eg, f.events020.event i = some eg →
      (readEvent020 f r i = .error () ↔
        ¬ (get020Complete eg.get_traces ∧ frib020Complete eg.frib_physics)) ∧
      (∀ ev, readEvent020 f r i = .ok ev →
        ev.get.isSome = eg.get_traces.isSome ∧ ev.frib.isSome = eg.frib_physics.isSome ∧
        ev.run_number = r ∧ ev.event = i)) ∧
    (∀ gg fg, f.get010 = some gg → f.frib010 = some fg →
      (readEvent010 f r i = .error () ↔
        ¬ (get010Complete (gg i) ∧ frib010Complete (fg i))) ∧
      (∀ ev, readEvent010 f r i = .ok ev →
        ev.get.isSome = (gg i).isSome ∧ ev.frib.isSome = (fg i).isSome ∧
        ev.run_number = r ∧ ev.event = i)) ∧
    (f.get010 = none → readEvent010 f r i = .error ()) := by
  refine ⟨?_, ?_, ?_⟩
  · intro eg heg
    cases hg : readGet020 eg.get_traces with
    | error e =>
      cases e
      have hng := (readGet020_error_iff _).mp hg
      have hval : readEvent020 f r i = .error () := by
        simp only [readEvent020, heg, hg]
      rw [hval]
      constructor
      · simp [hng]
      · intro ev hev
        exact absurd hev (by simp)
    | ok mg =>
      obtain ⟨hgC, hgS⟩ := readGet020_ok _ _ hg
      cases hf : readFrib020 eg.frib_physics with
      | error e =>
        cases e
        have hnf := (readFrib020_error_iff _).mp hf
        have hval : readEvent020 f r i = .error () := by
          simp only [readEvent020, heg, hg, hf]
        rw [hval]
        constructor
        · simp [hnf]
        · intro ev hev
          exact absurd hev (by simp)
      | ok mf =>
        obtain ⟨hfC, hfS⟩ := readFrib020_ok _ _ hf
        have hval : readEvent020 f r i = .ok ⟨mg, mf, r, i⟩ := by
          simp only [readEvent020, heg, hg, hf]
        rw [hval]
        constructor
        · simp [hgC, hfC]
        · intro ev hev
          simp only [Except.ok.injEq] at hev
          subst hev
          exact ⟨hgS, hfS, rfl, rfl⟩
  · intro gg fg hgg hfg
    cases hg : readGet010 (gg i) with
    | error e =>
      cases e
      have hng := (readGet010_error_iff _).mp hg
      have hval : readEvent010 f r i = .error () := by
        simp only [readEvent010, hgg, hg]
      rw [hval]
      constructor
      · simp [hng]
      · intro ev hev
        exact absurd hev (by simp)
    | ok mg =>
      obtain ⟨hgC, hgS⟩ := readGet010_ok _ _ hg
      cases hf : readFrib010 (fg i) with
      | error e =>
        cases e
        have hnf := (readFrib010_error_iff _).mp hf
        have hval : readEvent010 f r i = .error () := by
          simp only [readEvent010, hgg, hg, hfg, hf]
        rw [hval]
        constructor
        · simp [hnf]
        · intro ev hev
          exact absurd hev (by simp)
      | ok mf =>
        obtain ⟨hfC, hfS⟩ := readFrib010_ok _ _ hf
        have hval : readEvent010 f r i = .ok ⟨mg, mf, r, i⟩ := by
          simp only [readEvent010, hgg, hg, hfg, hf]
        rw [hval]
        constructor
        · simp [hgC, hfC]
        · intro ev hev
          simp only [Except.ok.injEq] at hev
          subst hev
          exact ⟨hgS, hfS, rfl, rfl⟩
  · intro hnone
    simp only [readEvent010, hnone]

/-- C4 witness: a current-schema event group with both markers absent decodes
to a payload-free event. -/
theorem c4_optional_payloads_witness :
    readEvent020 c1File 0 0 ≠ .error () := by
  have h := ((c4_optional_payloads c1File 0 0).1 emptyEvent020 rfl).1
  intro hc
  exact (h.mp hc) (by simp [emptyEvent020, get020Complete, frib020Complete])

theorem fileSize_append (sm : SizeModel) (l : List OutEvent) (x : OutEvent) :
    fileSize sm (l ++ [x]) = fileSize sm l + sm.evSize x := by
  simp [fileSize, List.sum_append]
  omega

theorem write_attrs_step (sm : SizeModel) (th : Nat) (st : WriterState) (ev : MergerEvent)
    (hfin : ∀ g ∈ st.finished, g.max_event_attr = some g.events.length ∧ g.min_event_attr = 0)
    (hce : st.current_event = st.current.events.length)
    (hmin : st.current.min_event_attr = 0) :
    (∀ g ∈ (write sm th st ev).finished,
        g.max_event_attr = some g.events.length ∧ g.min_event_attr = 0) ∧
    (write sm th st ev).current_event = (write sm th st ev).current.events.length ∧
    (write sm th st ev).current.min_event_attr = 0 := by
  by_cases hc : th ≤ fileSize sm (st.current.events ++ [outEventOf ev])
  · refine ⟨?_, ?_, ?_⟩
    · intro g hg
      simp only [write, hc, if_true] at hg
      rcases List.mem_append.mp hg with h | h
      · exact hfin g h
      · rcases List.mem_singleton.mp h with rfl
        simp [finishFile, hce, hmin]
    · simp [write, hc, newOutFile]
    · simp [write, hc, newOutFile]
  · refine ⟨?_, ?_, ?_⟩
    · intro g hg
      simp only [write, hc, if_false] at hg
      exact hfin g hg
    · simp [write, hc, hce]
    · simp [write, hc, hmin]

theorem writer_attrs_foldl (sm : SizeModel) (th : Nat) (evs : List MergerEvent)
    (st : WriterState)
    (hfin : ∀ g ∈ st.finished, g.max_event_attr = some g.events.length ∧ g.min_event_attr = 0)
    (hce : st.current_event = st.current.events.length)
    (hmin : st.current.min_event_attr = 0) :
    (∀ g ∈ (evs.foldl (write sm th) st).finished,
        g.max_event_attr = some g.events.length ∧ g.min_event_attr = 0) ∧
    (evs.foldl (write sm th) st).current_event =
      (evs.foldl (write sm th) st).current.events.length ∧
    (evs.foldl (write sm th) st).current.min_event_attr = 0 := by
  induction evs generalizing st with
  | nil => exact ⟨hfin, hce, hmin⟩
  | cons ev rest ih =>
    rw [List.foldl_cons]
    obtain ⟨h1, h2, h3⟩ := write_attrs_step sm th st ev hfin hce hmin
    exact ih (write sm th st ev) h1 h2 h3

/-- C6: every finalized output file records `max_event` equal to the number of
`write` calls it received since it was opened (each `write` call appends
exactly one event to the open file, so that number is the file's event
count), and `min_event` is 0, written at file creation and never changed. -/
theorem c6_final_attrs (sm : SizeModel) (th : Nat) (evs : List MergerEvent) :
    ∀ g ∈ runWriter sm th evs,
      g.max_event_attr = some g.events.length ∧ g.min_event_attr = 0 := by
  intro g hg
  obtain ⟨hfin, hce, hmin⟩ := writer_attrs_foldl sm th evs initWriter
    (by simp [initWriter]) (by simp [initWriter, newOutFile]) (by simp [initWriter, newOutFile])
  unfold runWriter close at hg
  rcases List.mem_append.mp hg with h | h
  · exact hfin g h
  · rcases List.mem_singleton.mp h with rfl
    simp [finishFile, hce, hmin]

/-- C6 witness: the writer applied to the empty stream finalizes one file
with `max_event = 0` and `min_event = 0`. -/
theorem c6_final_attrs_witness :
    ({ min_event_attr := 0, events := [], max_event_attr := some 0 } : OutFile).max_event_attr =
      some ({ min_event_attr := 0, events := [], max_event_attr := some 0 } : OutFile).events.length ∧
    ({ min_event_attr := 0, events := [], max_event_attr := some 0 } : OutFile).min_event_attr = 0 :=
  c6_final_attrs sm0 1 []
    { min_event_attr := 0, events := [], max_event_attr := some 0 } (by decide)

theorem write_size_foldl (sm : SizeModel) (th : Nat) (hbase : sm.base ≤ th)
    (evs : List MergerEvent) (st : WriterState)
    (hfin : ∀ g ∈ st.finished, ∃ x, g.events.getLast? = some x ∧
        th ≤ fileSize sm g.events ∧ fileSize sm g.events ≤ th + sm.evSize x)
    (hcur : fileSize sm st.current.events < th ∨ st.current.events = []) :
    (∀ g ∈ (evs.foldl (write sm th) st).finished, ∃ x, g.events.getLast? = some x ∧
        th ≤ fileSize sm g.events ∧ fileSize sm g.events ≤ th + sm.evSize x) ∧
    (fileSize sm (evs.foldl (write sm th) st).current.events < th ∨
      (evs.foldl (write sm th) st).current.events = []) := by
  induction evs generalizing st with
  | nil => exact ⟨hfin, hcur⟩
  | cons ev rest ih =>
    rw [List.foldl_cons]
    refine ih (write sm th st ev) ?_ ?_
    · intro g hg
      by_cases hc : th ≤ fileSize sm (st.current.events ++ [outEventOf ev])
      · simp only [write, hc, if_true] at hg
        rcases List.mem_append.mp hg with h | h
        · exact hfin g h
        · rcases List.mem_singleton.mp h with rfl
          refine ⟨outEventOf ev, ?_, ?_, ?_⟩
          · simp [finishFile]
          · simpa [finishFile] using hc
          · simp only [finishFile]
            rw [fileSize_append]
            rcases hcur with hlt | hnil
            · omega
            · rw [hnil]
              simp only [fileSize, List.map_nil, List.sum_nil, Nat.add_zero]
              omega
      · simp only [write, hc, if_false] at hg
        exact hfin g hg
    · by_cases hc : th ≤ fileSize sm (st.current.events ++ [outEventOf ev])
      · simp [write, hc, newOutFile]
      · simp only [write, hc, if_false]
        left
        omega

/-- C7: the size check runs only after the full event has been appended and
the local index incremented — the writer rolls over, finalizing the current
file with the incremented count and opening the next-numbered file with
local index 0, exactly when the file size including the new event has
reached the threshold; consequently (for a size model whose fresh-file
overhead does not itself exceed the threshold) no output file except
possibly the last exceeds the threshold by more than the size of one event
(its own last one). -/
theorem c7_rollover (sm : SizeModel) (th : Nat) (evs : List MergerEvent)
    (hbase : sm.base ≤ th) :
    (∀ st ev,
      (th ≤ fileSize sm (st.current.events ++ [outEventOf ev]) →
        write sm th st ev =
          { finished := st.finished ++
              [finishFile { st.current with events := st.current.events ++ [outEventOf ev] }
                (st.current_event + 1)]
            current := newOutFile
            current_event := 0
            current_run := st.current_run + 1 }) ∧
      (¬ th ≤ fileSize sm (st.current.events ++ [outEventOf ev]) →
        write sm th st ev =
          { st with
              current := { st.current with events := st.current.events ++ [outEventOf ev] }
              current_event := st.current_event + 1 })) ∧
    (∀ g ∈ (runWriter sm th evs).dropLast, ∃ x, g.events.getLast? = some x ∧
      th ≤ fileSize sm g.events ∧ fileSize sm g.events ≤ th + sm.evSize x) := by
  constructor
  · intro st ev
    constructor
    · intro hc
      simp [write, hc]
    · intro hc
      simp [write, hc]
  · intro g hg
    obtain ⟨hfin, _⟩ := write_size_foldl sm th hbase evs initWriter
      (by simp [initWriter]) (by simp [initWriter, newOutFile])
    unfold runWriter close at hg
    rw [List.dropLast_concat] at hg
    exact hfin g hg

/-- C7 witness: with threshold 0 every write rolls over immediately. -/
theorem c7_rollover_witness :
    write sm0 0 initWriter wEvent =
      { finished := [{ min_event_attr := 0, events := [outEventOf wEvent],
                       max_event_attr := some 1 }]
        current := newOutFile
        current_event := 0
        current_run := 1 } := by
  have h := ((c7_rollover sm0 0 [] (by decide)).1 initWriter wEvent).1 (by decide)
  simpa [initWriter, newOutFile, finishFile] using h

/-- C9: an input stream whose final write pushes the open file's size to the
threshold leaves a freshly opened, event-less output file behind, and the
subsequent `close` finalizes that empty file with `max_event = 0`: the
output file set can end with an event-less file. -/
theorem c9_trailing_empty (sm : SizeModel) (th : Nat) (pre : List MergerEvent)
    (last : MergerEvent)
    (h : th ≤ fileSize sm
        ((pre.foldl (write sm th) initWriter).current.events ++ [outEventOf last])) :
    (runWriter sm th (pre ++ [last])).getLast? =
      some { min_event_attr := 0, events := [], max_event_attr := some 0 } ∧
    (runWriter sm th (pre ++ [last])).length =
      (pre.foldl (write sm th) initWriter).finished.length + 2 := by
  have hsplit : runWriter sm th (pre ++ [last]) =
      close (write sm th (pre.foldl (write sm th) initWriter) last) := by
    unfold runWriter
    rw [List.foldl_append, List.foldl_cons, List.foldl_nil]
  have hw : write sm th (pre.foldl (write sm th) initWriter) last =
      { finished := (pre.foldl (write sm th) initWriter).finished ++
          [finishFile { (pre.foldl (write sm th) initWriter).current with
              events := (pre.foldl (write sm th) initWriter).current.events ++
                [outEventOf last] }
            ((pre.foldl (write sm th) initWriter).current_event + 1)]
        current := newOutFile
        current_event := 0
        current_run := (pre.foldl (write sm th) initWriter).current_run + 1 } := by
    simp [write, h]
  rw [hsplit, hw]
  unfold close
  refine ⟨?_, ?_⟩
  · simp [finishFile, newOutFile]
  · simp

/-- C9 witness: a one-event stream whose single event fills the first file. -/
theorem c9_trailing_empty_witness :
    (runWriter sm0 1 ([] ++ [wEvent])).getLast? =
      some { min_event_attr := 0, events := [], max_event_attr := some 0 } :=
  (c9_trailing_empty sm0 1 [] wEvent (by decide)).1

theorem readEventV_proj (v : MergerVersion) (f : RunFile) (r : Int) (i : Nat)
    (ev : MergerEvent) (h : readEventV v f r i = .ok ev) :
    ev.run_number = r ∧ ev.event = i := by
  cases v with
  | V020 =>
    simp only [readEventV] at h
    cases h1 : f.events020.event i with
    | none =>
      simp only [readEvent020, h1] at h
      exact absurd h (by simp)
    | some eg =>
      cases h2 : readGet020 eg.get_traces with
      | error e =>
        simp only [readEvent020, h1, h2] at h
        exact absurd h (by simp)
      | ok mg =>
        cases h3 : readFrib020 eg.frib_physics with
        | error e =>
          simp only [readEvent020, h1, h2, h3] at h
          exact absurd h (by simp)
        | ok mf =>
          simp only [readEvent020, h1, h2, h3, Except.ok.injEq] at h
          subst h
          exact ⟨rfl, rfl⟩
  | V010 =>
    simp only [readEventV] at h
    cases h1 : f.get010 with
    | none =>
      simp only [readEvent010, h1] at h
      exact absurd h (by simp)
    | some gg =>
      cases h2 : readGet010 (gg i) with
      | error e =>
        simp only [readEvent010, h1, h2] at h
        exact absurd h (by simp)
      | ok mg =>
        cases h3 : f.frib010 with
        | none =>
          simp only [readEvent010, h1, h2, h3] at h
          exact absurd h (by simp)
        | some fg =>
          cases h4 : readFrib010 (fg i) with
          | error e =>
            simp only [readEvent010, h1, h2, h3, h4] at h
            exact absurd h (by simp)
          | ok mf =>
            simp only [readEvent010, h1, h2, h3, h4, Except.ok.injEq] at h
            subst h
            exact ⟨rfl, rfl⟩
  | Invalid =>
    simp only [readEventV] at h
    exact absurd h (by simp)

theorem readRunFrom_proj (v : MergerVersion) (f : RunFile) (r : Int) :
    ∀ (n e : Nat) (l : List MergerEvent), readRunFrom v f r e n = .ok l →
      l.map proj = (List.range' e n).map (fun i => ((r : Int), i)) := by
  intro n
  induction n with
  | zero =>
    intro e l h
    simp only [readRunFrom, Except.ok.injEq] at h
    subst h
    simp
  | succ n ih =>
    intro e l h
    simp only [readRunFrom] at h
    cases h1 : readEventV v f r e with
    | error err =>
      rw [h1] at h
      exact absurd h (by simp)
    | ok ev =>
      rw [h1] at h
      cases h2 : readRunFrom v f r (e + 1) n with
      | error err =>
        rw [h2] at h
        exact absurd h (by simp)
      | ok rest =>
        rw [h2] at h
        simp only [Except.ok.injEq] at h
        subst h
        obtain ⟨hr, he⟩ := readEventV_proj v f r e ev h1
        rw [List.range'_succ]
        simp [proj, hr, he, ih e.succ rest h2]

theorem block_pairwise (r : Int) (e n : Nat) :
    ((List.range' e n).map (fun i => ((r : Int), i))).Pairwise lexLt := by
  refine List.Pairwise.map _ ?_ (List.pairwise_lt_range' e n)
  intro a b hab
  exact Or.inr ⟨rfl, hab⟩

theorem mem_runRange {a b r : Int} : r ∈ runRange a b ↔ a ≤ r ∧ r ≤ b := by
  constructor
  · intro h
    obtain ⟨k, hk, hkr⟩ := List.mem_map.mp h
    have hk' := List.mem_range.mp hk
    omega
  · rintro ⟨h1, h2⟩
    exact List.mem_map.mpr ⟨(r - a).toNat, List.mem_range.mpr (by omega), by omega⟩

theorem runRange_pairwise (a b : Int) : (runRange a b).Pairwise (· < ·) := by
  have h : ∀ x y : Nat, x < y → a + (x : Int) < a + (y : Int) := by
    intro x y hxy
    omega
  exact List.Pairwise.map _ h (List.pairwise_lt_range _)

theorem drainRuns_spec (disk : Disk) :
    ∀ (runs : List Int) (evs : List MergerEvent), drainRuns disk runs = .ok evs →
      (∀ p ∈ evs.map proj, p.1 ∈ runs ∧ (disk p.1).isSome = true) ∧
      (runs.Pairwise (· < ·) → (evs.map proj).Pairwise lexLt) ∧
      (∀ r ∈ runs, ∀ f, disk r = some f → ∀ v e0 mE, initFile f = .ok (v, e0, mE) →
        ∀ i, e0 ≤ i → i ≤ mE → ((r : Int), i) ∈ evs.map proj) := by
  intro runs
  induction runs with
  | nil =>
    intro evs h
    simp only [drainRuns, Except.ok.injEq] at h
    subst h
    simp
  | cons r rest ih =>
    intro evs h
    cases hd : disk r with
    | none =>
      simp only [drainRuns, hd] at h
      obtain ⟨ih1, ih2, ih3⟩ := ih evs h
      refine ⟨?_, ?_, ?_⟩
      · intro p hp
        obtain ⟨h1, h2⟩ := ih1 p hp
        exact ⟨List.mem_cons_of_mem _ h1, h2⟩
      · intro hpw
        exact ih2 (List.Pairwise.of_cons hpw)
      · intro r' hr' f hf v e0 mE hinit i hi1 hi2
        rcases List.mem_cons.mp hr' with rfl | hmem
        · rw [hd] at hf
          exact absurd hf (by simp)
        · exact ih3 r' hmem f hf v e0 mE hinit i hi1 hi2
    | some f =>
      simp only [drainRuns, hd] at h
      cases hinit : initFile f with
      | error e =>
        first
          | (simp only [hinit] at h
             exact absurd h (by simp))
          | simp only [hinit] at h
      | ok t =>
        obtain ⟨v, e0, mE⟩ := t
        simp only [hinit] at h
        cases hblock : readRunFrom v f r e0 (mE + 1 - e0) with
        | error e =>
          first
            | (simp only [hblock] at h
               exact absurd h (by simp))
            | simp only [hblock] at h
        | ok bevs =>
          simp only [hblock] at h
          cases hrest : drainRuns disk rest with
          | error e =>
            first
              | (simp only [hrest] at h
                 exact absurd h (by simp))
              | simp only [hrest] at h
          | ok revs =>
            simp only [hrest, Except.ok.injEq] at h
            subst h
            obtain ⟨ih1, ih2, ih3⟩ := ih revs hrest
            have hbproj := readRunFrom_proj v f r (mE + 1 - e0) e0 bevs hblock
            refine ⟨?_, ?_, ?_⟩
            · intro p hp
              rw [List.map_append] at hp
              rcases List.mem_append.mp hp with hpb | hpr
              · rw [hbproj] at hpb
                obtain ⟨i, hi, rfl⟩ := List.mem_map.mp hpb
                exact ⟨List.mem_cons_self _ _, by simp [hd]⟩
              · obtain ⟨h1, h2⟩ := ih1 p hpr
                exact ⟨List.mem_cons_of_mem _ h1, h2⟩
            · intro hpw
              rw [List.map_append, List.pairwise_append]
              refine ⟨?_, ih2 (List.Pairwise.of_cons hpw), ?_⟩
              · rw [hbproj]
                exact block_pairwise r e0 _
              · intro a ha b hb
                rw [hbproj] at ha
                obtain ⟨i, _, rfl⟩ := List.mem_map.mp ha
                obtain ⟨hb1, _⟩ := ih1 b hb
                exact Or.inl ((List.pairwise_cons.mp hpw).1 b.1 hb1)
            · intro r' hr' f' hf' v' e0' mE' hinit' i hi1 hi2
              rw [List.map_append]
              rcases List.mem_cons.mp hr' with rfl | hmem
              · rw [hd, Option.some.injEq] at hf'
                subst hf'
                rw [hinit, Except.ok.injEq, Prod.mk.injEq, Prod.mk.injEq] at hinit'
                obtain ⟨-, he0, hmE⟩ := hinit'
                subst he0
                subst hmE
                apply List.mem_append_left
                rw [hbproj]
                exact List.mem_map.mpr ⟨i, List.mem_range'_1.mpr ⟨hi1, by omega⟩, rfl⟩
              · exact List.mem_append_right _
                  (ih3 r' hmem f' hf' v' e0' mE' hinit' i hi1 hi2)

theorem readAllEvents_spec (disk : Disk) (minRun maxRun : Int) (evs : List MergerEvent)
    (h : readAllEvents disk minRun maxRun = .ok evs) :
    (∀ p ∈ evs.map proj,
      (p.1 = minRun ∨ (minRun < p.1 ∧ p.1 ≤ maxRun)) ∧ (disk p.1).isSome = true) ∧
    (evs.map proj).Pairwise lexLt ∧
    (∀ r, (r = minRun ∨ (minRun < r ∧ r ≤ maxRun)) → ∀ f, disk r = some f →
      ∀ v e0 mE, initFile f = .ok (v, e0, mE) →
        ∀ i, e0 ≤ i → i ≤ mE → ((r : Int), i) ∈ evs.map proj) := by
  cases hd : disk minRun with
  | none =>
    first
      | (simp only [readAllEvents, hd] at h
         exact absurd h (by simp))
      | simp only [readAllEvents, hd] at h
  | some f =>
    simp only [readAllEvents, hd] at h
    cases hinit : initFile f with
    | error e =>
      first
        | (simp only [hinit] at h
           exact absurd h (by simp))
        | simp only [hinit] at h
    | ok t =>
      obtain ⟨v, e0, mE⟩ := t
      simp only [hinit] at h
      cases hblock : readRunFrom v f minRun e0 (mE + 1 - e0) with
      | error e =>
        first
          | (simp only [hblock] at h
             exact absurd h (by simp))
          | simp only [hblock] at h
      | ok bevs =>
        simp only [hblock] at h
        cases hrest : drainRuns disk (runRange (minRun + 1) maxRun) with
        | error e =>
          first
            | (simp only [hrest] at h
               exact absurd h (by simp))
            | simp only [hrest] at h
        | ok revs =>
          simp only [hrest, Except.ok.injEq] at h
          subst h
          obtain ⟨ih1, ih2, ih3⟩ := drainRuns_spec disk _ revs hrest
          have hbproj := readRunFrom_proj v f minRun (mE + 1 - e0) e0 bevs hblock
          refine ⟨?_, ?_, ?_⟩
          · intro p hp
            rw [List.map_append] at hp
            rcases List.mem_append.mp hp with hpb | hpr
            · rw [hbproj] at hpb
              obtain ⟨i, hi, rfl⟩ := List.mem_map.mp hpb
              exact ⟨Or.inl rfl, by simp [hd]⟩
            · obtain ⟨h1, h2⟩ := ih1 p hpr
              have := mem_runRange.mp h1
              exact ⟨Or.inr (by omega), h2⟩
          · rw [List.map_append, List.pairwise_append]
            refine ⟨?_, ih2 (runRange_pairwise _ _), ?_⟩
            · rw [hbproj]
              exact block_pairwise minRun e0 _
            · intro a ha b hb
              rw [hbproj] at ha
              obtain ⟨i, _, rfl⟩ := List.mem_map.mp ha
              obtain ⟨hb1, _⟩ := ih1 b hb
              have := mem_runRange.mp hb1
              exact Or.inl (by omega)
          · intro r hr f' hf' v' e0' mE' hinit' i hi1 hi2
            rw [List.map_append]
            rcases hr with rfl | ⟨hr1, hr2⟩
            · rw [hd, Option.some.injEq] at hf'
              subst hf'
              rw [hinit, Except.ok.injEq, Prod.mk.injEq, Prod.mk.injEq] at hinit'
              obtain ⟨-, he0, hmE⟩ := hinit'
              subst he0
              subst hmE
              apply List.mem_append_left
              rw [hbproj]
              exact List.mem_map.mpr ⟨i, List.mem_range'_1.mpr ⟨hi1, by omega⟩, rfl⟩
            · exact List.mem_append_right _
                (ih3 r (mem_runRange.mpr ⟨by omega, hr2⟩) f' hf' v' e0' mE' hinit' i hi1 hi2)

theorem concatOutput_nil : concatOutput [] = [] := rfl

theorem concatOutput_cons (g : OutFile) (l : List OutFile) :
    concatOutput (g :: l) = g.events ++ concatOutput l := rfl

theorem concatOutput_append (l1 l2 : List OutFile) :
    concatOutput (l1 ++ l2) = concatOutput l1 ++ concatOutput l2 := by
  induction l1 with
  | nil => rfl
  | cons g l ih => simp [concatOutput_cons, ih]

theorem liveOutput_write (sm : SizeModel) (th : Nat) (st : WriterState) (ev : MergerEvent) :
    liveOutput (write sm th st ev) = liveOutput st ++ [outEventOf ev] := by
  by_cases hc : th ≤ fileSize sm (st.current.events ++ [outEventOf ev]) <;>
    simp [liveOutput, write, hc, concatOutput_append, concatOutput_cons, concatOutput_nil,
      finishFile, newOutFile]

theorem liveOutput_foldl (sm : SizeModel) (th : Nat) (evs : List MergerEvent)
    (st : WriterState) :
    liveOutput (evs.foldl (write sm th) st) = liveOutput st ++ evs.map outEventOf := by
  induction evs generalizing st with
  | nil => simp
  | cons ev rest ih =>
    rw [List.foldl_cons, ih, liveOutput_write]
    simp

theorem concatOutput_close (st : WriterState) : concatOutput (close st) = liveOutput st := by
  simp [close, concatOutput_append, concatOutput_cons, concatOutput_nil, liveOutput, finishFile]

theorem runWriter_concat (sm : SizeModel) (th : Nat) (evs : List MergerEvent) :
    (concatOutput (runWriter sm th evs)).map outProj = evs.map proj := by
  unfold runWriter
  rw [concatOutput_close, liveOutput_foldl]
  simp only [liveOutput, initWriter, newOutFile, concatOutput_nil, List.nil_append,
    List.map_map]
  rfl

/-- C2: concatenating all output files' event sequences in file-number order
then local-index order and projecting onto `(orig_run, orig_event)`
reproduces exactly the `(run_number, event)` sequence produced by
`read_event`, which is strictly increasing in lexicographic order (hence
duplicate-free); every event comes from a run present on disk (the first run
or an in-range later run), and every declared index of every such run
appears, so nothing is omitted except runs absent from disk. -/
theorem c2_order (disk : Disk) (minRun maxRun : Int) (evs : List MergerEvent)
    (sm : SizeModel) (th : Nat) (h : readAllEvents disk minRun maxRun = .ok evs) :
    (concatOutput (runWriter sm th evs)).map outProj = evs.map proj ∧
    (evs.map proj).Pairwise lexLt ∧
    (∀ p ∈ evs.map proj,
      (p.1 = minRun ∨ (minRun < p.1 ∧ p.1 ≤ maxRun)) ∧ (disk p.1).isSome = true) ∧
    (∀ r, (r = minRun ∨ (minRun < r ∧ r ≤ maxRun)) → ∀ f, disk r = some f →
      ∀ v e0 mE, initFile f = .ok (v, e0, mE) →
        ∀ i, e0 ≤ i → i ≤ mE → ((r : Int), i) ∈ evs.map proj) := by
  obtain ⟨h1, h2, h3⟩ := readAllEvents_spec disk minRun maxRun evs h
  exact ⟨runWriter_concat sm th evs, h2, h1, h3⟩

/-- C2 witness: a two-present-run disk (current-schema run 0, missing run 1,
legacy run 2), written with a one-byte-per-event size model. -/
theorem c2_order_witness :
    (concatOutput (runWriter sm0 1
        [⟨none, none, 0, 0⟩, ⟨none, none, 0, 1⟩, ⟨none, none, 2, 0⟩,
          ⟨none, none, 2, 1⟩])).map outProj =
      ([⟨none, none, 0, 0⟩, ⟨none, none, 0, 1⟩, ⟨none, none, 2, 0⟩,
          ⟨none, none, 2, 1⟩] : List MergerEvent).map proj ∧
    (([⟨none, none, 0, 0⟩, ⟨none, none, 0, 1⟩, ⟨none, none, 2, 0⟩,
          ⟨none, none, 2, 1⟩] : List MergerEvent).map proj).Pairwise lexLt :=
  ⟨(c2_order c2Disk 0 2 _ sm0 1 rfl).1, (c2_order c2Disk 0 2 _ sm0 1 rfl).2.1⟩

theorem get?_pushRow :
    ∀ (s : Scalers) (row : List Nat) (j : Nat),
      (pushRow s row).get? j = appendCell (s.get? j) (row.get? j) := by
  intro s
  induction s with
  | nil =>
    intro row j
    cases row <;> cases j <;> rfl
  | cons c t ih =>
    intro row j
    cases row with
    | nil =>
      cases j with
      | zero => rfl
      | succ j =>
        cases h2 : t.get? j <;> simp [pushRow, appendCell, h2]
    | cons b tb =>
      cases j with
      | zero => rfl
      | succ j => exact ih tb j

theorem rs010Go_spec (run : Int) :
    ∀ (sdats : List (Option (Fin 11 → Nat))) (s : Scalers) (i : Nat) (s' : Scalers),
      rs010Go run s i sdats = .ok s' →
      ∃ rows : List (Fin 11 → Nat), sdats = rows.map some ∧
        s' = pushRecs run s (List.enumFrom i rows) := by
  intro sdats
  induction sdats with
  | nil =>
    intro s i s' h
    simp only [rs010Go, Except.ok.injEq] at h
    subst h
    exact ⟨[], rfl, rfl⟩
  | cons d rest ih =>
    intro s i s' h
    cases d with
    | none =>
      first
        | (simp only [rs010Go] at h
           exact absurd h (by simp))
        | simp only [rs010Go] at h
    | some row =>
      simp only [rs010Go] at h
      obtain ⟨rows', hrest, hs'⟩ := ih _ _ _ h
      refine ⟨row :: rows', by simp [hrest], ?_⟩
      rw [hs']
      rfl

theorem rs020Go_spec (run : Int) (sg : Scalers020) :
    ∀ (n : Nat) (s : Scalers) (i : Nat) (s' : Scalers),
      rs020Go run sg s i n = .ok s' →
      ∃ recs : List (Nat × (Fin 11 → Nat)), s' = pushRecs run s recs ∧
        ∀ p ∈ recs, sg.record p.1 = some (some p.2) ∧ i ≤ p.1 ∧ p.1 < i + n := by
  intro n
  induction n with
  | zero =>
    intro s i s' h
    simp only [rs020Go, Except.ok.injEq] at h
    subst h
    exact ⟨[], rfl, by simp⟩
  | succ n ih =>
    intro s i s' h
    cases hrec : sg.record i with
    | none =>
      first
        | (simp only [rs020Go, hrec] at h
           exact absurd h (by simp))
        | simp only [rs020Go, hrec] at h
    | some o =>
      cases o with
      | none =>
        simp only [rs020Go, hrec] at h
        obtain ⟨recs, hs', hcond⟩ := ih _ _ _ h
        refine ⟨recs, hs', ?_⟩
        intro p hp
        obtain ⟨h1, h2, h3⟩ := hcond p hp
        exact ⟨h1, by omega, by omega⟩
      | some row =>
        simp only [rs020Go, hrec] at h
        obtain ⟨recs, hs', hcond⟩ := ih _ _ _ h
        refine ⟨(i, row) :: recs, ?_, ?_⟩
        · rw [hs']
          rfl
        · intro p hp
          rcases List.mem_cons.mp hp with rfl | hmem
          · exact ⟨hrec, le_refl _, by omega⟩
          · obtain ⟨h1, h2, h3⟩ := hcond p hmem
            exact ⟨h1, by omega, by omega⟩

/-- C10: the scaler accumulator has exactly 13 column vectors (all initially
empty); appending a row preserves the column count, extends every column by
exactly one entry (so all 13 stay the same length after each successfully
appended record), and places the row values columnwise — the run number into
column 0, the record's own per-run index into column 1, then the 11 channel
values in the fixed declared order; and in both schemas every row the
readers append has exactly this shape, with the legacy probe using the
running index from 0 and the current-schema loop using each present
record's own in-range index. -/
theorem c10_accumulator (s : Scalers) (run idx : Nat) (d : Fin 11 → Nat) :
    initScalers = List.replicate 13 [] ∧
    rowOf run idx d =
      [run, idx, d 0, d 1, d 2, d 3, d 4, d 5, d 6, d 7, d 8, d 9, d 10] ∧
    (s.length = 13 → (pushRow s (rowOf run idx d)).length = 13) ∧
    (∀ n, (∀ c ∈ s, c.length = n) → ∀ c ∈ pushRow s (rowOf run idx d), c.length = n + 1) ∧
    (∀ j : Nat, (pushRow s (rowOf run idx d)).get? j =
      appendCell (s.get? j) ((rowOf run idx d).get? j)) ∧
    (∀ (rn : Int) (sdats : List (Option (Fin 11 → Nat))) (i : Nat) (s' : Scalers),
      rs010Go rn s i sdats = .ok s' →
      ∃ rows : List (Fin 11 → Nat), sdats = rows.map some ∧
        s' = pushRecs rn s (List.enumFrom i rows)) ∧
    (∀ (rn : Int) (sg : Scalers020) (n i : Nat) (s' : Scalers),
      rs020Go rn sg s i n = .ok s' →
      ∃ recs : List (Nat × (Fin 11 → Nat)), s' = pushRecs rn s recs ∧
        ∀ p ∈ recs, sg.record p.1 = some (some p.2) ∧ i ≤ p.1 ∧ p.1 < i + n) := by
  refine ⟨rfl, rfl, ?_, ?_, ?_, ?_, ?_⟩
  · intro hlen
    simp [pushRow, rowOf, hlen]
  · intro n hbal c hc
    obtain ⟨j, hj⟩ := List.mem_iff_get?.mp hc
    rw [get?_pushRow s (rowOf run idx d) j] at hj
    cases hcol : s.get? j with
    | none =>
      rw [hcol] at hj
      simp [appendCell] at hj
    | some col =>
      cases hv : (rowOf run idx d).get? j with
      | none =>
        rw [hcol, hv] at hj
        simp [appendCell] at hj
      | some v =>
        rw [hcol, hv] at hj
        simp only [appendCell, Option.some.injEq] at hj
        subst hj
        have hmem := List.get?_mem hcol
        simp [hbal col hmem]
  · intro j
    exact get?_pushRow s (rowOf run idx d) j
  · intro rn sdats i s' h
    exact rs010Go_spec rn sdats s i s' h
  · intro rn sg n i s' h
    exact rs020Go_spec rn sg n s i s' h

/-- C10 witness: pushing one row onto the initial accumulator keeps 13
columns and appends the run number to column 0. -/
theorem c10_accumulator_witness :
    (pushRow initScalers (rowOf 3 0 (fun _ => 9))).length = 13 ∧
    (pushRow initScalers (rowOf 3 0 (fun _ => 9))).get? 0 = some [3] := by
  exact ⟨(c10_accumulator initScalers 3 0 (fun _ => 9)).2.2.1 rfl,
    ((c10_accumulator initScalers 3 0 (fun _ => 9)).2.2.2.2.1 0).trans (by rfl)⟩

end Harmonizer
